import Mathlib

/-!
# x86_cpuload: a verification development

Shallow embedding of `tools/power/x86/x86_cpuload/x86_cpuload.c`.

Machine integers are natural numbers / integers with explicit reduction:

* `unsigned long` and `unsigned long long` are 64 bits wide (x86-64, LP64):
  values are `Nat`, arithmetic is reduced modulo `2 ^ 64`;
* `int` is 32 bits wide: values are `Int`, a product computed in `int` is
  reduced to the two's complement range (what the x86 `imul` instruction
  leaves in the register);
* a conversion of a signed value to an unsigned type is reduction modulo
  `2 ^ 64` (or `2 ^ 32` for `unsigned int`).

Everything the program obtains from the platform (the cycle counter, the
content of `/proc/stat`, the results of the pthread calls and of `malloc`,
and the indeterminate initial value of an uninitialised local) is an explicit
argument.
-/

namespace X86Cpuload

/-! ## Machine arithmetic -/

/-- Number of values of a 64-bit unsigned type. -/
def U64 : Nat := 2 ^ 64

/-- Number of values of a 32-bit unsigned type. -/
def U32 : Nat := 2 ^ 32

/-- Conversion of a signed value to `unsigned long` / `unsigned long long`. -/
def to_u64 (x : Int) : Nat := (x % (U64 : Int)).toNat

/-- Conversion of a signed value to `unsigned int`. -/
def to_u32 (x : Int) : Nat := (x % (U32 : Int)).toNat

/-- Result of an `int` computation, reduced to the two's complement range
`[-2^31, 2^31)`. -/
def wrap_int (x : Int) : Int := (x + 2 ^ 31) % 2 ^ 32 - 2 ^ 31

/-- Subtraction of two 64-bit unsigned values. -/
def sub_u64 (a b : Nat) : Nat := (a % U64 + U64 - b % U64) % U64

/-! ## Parameter validation -/

/-- Source `verify_param` (lines 233-238); the three globals are arguments.
The sum `start_cpu + thread_count` is an `unsigned long` sum. -/
def verify_param (start_cpu thread_count online_cpus : Nat) : Bool :=
  decide (start_cpu < online_cpus) &&
    (decide (thread_count > 0) && decide (thread_count ≤ online_cpus)) &&
    decide ((start_cpu + thread_count) % U64 ≤ online_cpus)

/-! ## Calibration and duty-cycle arithmetic -/

/-- Source `cpu_info_init` (lines 82-93). `tsc0` and `tsc1` are the two
values returned by `rdtsc()` before and after the `usleep`. The result is the
pair `(sample_tsc, timeout_tsc)` stored in `cpu_info[cpu]`; `none` stands for
the division by zero when `sample_ms` converts to `0`. The product
`time_out*1000000` is computed in `int`; it is then converted to
`unsigned long long` for the product with `sample_tsc`, and both divisions
are unsigned 64-bit divisions. -/
def cpu_info_init (sample_ms time_out : Int) (tsc0 tsc1 : Nat) : Option (Nat × Nat) :=
  let sample_tsc := sub_u64 tsc1 tsc0
  let scaled := (to_u64 (wrap_int (time_out * 1000000)) * sample_tsc) % U64
  if to_u64 sample_ms = 0 then none
  else some (sample_tsc, scaled / to_u64 sample_ms / 1000)

/-- Source `get_percent` (lines 132-136): `src * percent / 100` in unsigned
64-bit arithmetic. -/
def get_percent (src percent : Nat) : Nat := (src * percent) % U64 / 100

/-- The value `cpu_workload` (line 149) assigns to its local `usec_sleep`:
`sample_ms * 1000 - get_percent(sample_ms * 1000, work_load)`. The product
`sample_ms * 1000` is an `int`, `work_load` is converted to `unsigned int`
by the call, and the subtraction is an unsigned 64-bit subtraction. -/
def usec_sleep (sample_ms work_load : Int) : Nat :=
  sub_u64 (to_u64 (wrap_int (sample_ms * 1000)))
    (get_percent (to_u64 (wrap_int (sample_ms * 1000))) (to_u32 work_load))

/-! ## The duty-cycle loop -/

/-- Local state of `consume` together with two counters of what it has done:
`reads` is the number of `rdtsc()` calls made so far and `sleeps` the number
of `usleep(sleep_us)` calls; `slept_us` adds up the arguments passed to
`usleep` (an `unsigned int`). -/
structure ConsumeState where
  now : Nat
  end_sample : Nat
  reads : Nat
  sleeps : Nat
  slept_us : Nat
  deriving DecidableEq, Repr

/-- Body of the `while` loop of `consume` (lines 124-128). `tsc k` is the
value returned by the `k`-th call of `rdtsc()` in this thread, counted
from 0. -/
def consume_step (tsc : Nat → Nat) (sleep_us sample_tsc : Nat) (st : ConsumeState) :
    ConsumeState :=
  let now := tsc st.reads
  if now > st.end_sample then
    { now := now
      end_sample := (st.end_sample + sample_tsc) % U64
      reads := st.reads + 1
      sleeps := st.sleeps + 1
      slept_us := st.slept_us + sleep_us % U32 }
  else
    { now := now
      end_sample := st.end_sample
      reads := st.reads + 1
      sleeps := st.sleeps
      slept_us := st.slept_us }

/-- State of the `while (now < end)` loop of `consume` (line 123) after at
most `n` iterations: the loop test is evaluated before each iteration and the
state no longer changes once the test has failed. -/
def consume_run (tsc : Nat → Nat) (sleep_us sample_tsc end_ : Nat) :
    Nat → ConsumeState → ConsumeState
  | 0, st => st
  | n + 1, st =>
    if st.now < end_ then
      consume_run tsc sleep_us sample_tsc end_ n (consume_step tsc sleep_us sample_tsc st)
    else st

/-- State of `consume` on entry to the loop (lines 120-122). -/
def consume_init (tsc : Nat → Nat) (sample_tsc : Nat) : ConsumeState :=
  { now := tsc 0
    end_sample := (tsc 0 + sample_tsc) % U64
    reads := 1
    sleeps := 0
    slept_us := 0 }

/-- The local `end` of `consume` (line 121). -/
def consume_end (tsc : Nat → Nat) (timeout_tsc : Nat) : Nat := (tsc 0 + timeout_tsc) % U64

/-- State of `consume` after at most `n` loop iterations. -/
def consume_state (n : Nat) (tsc : Nat → Nat) (sleep_us sample_tsc timeout_tsc : Nat) :
    ConsumeState :=
  consume_run tsc sleep_us sample_tsc (consume_end tsc timeout_tsc) n
    (consume_init tsc sample_tsc)

/-- Source `consume` (lines 115-130), run for at most `fuel` loop iterations:
`some st` when the loop test has failed within `fuel` iterations (`st` is the
state on return), `none` when the loop is still running. -/
def consume (fuel : Nat) (tsc : Nat → Nat) (sleep_us sample_tsc timeout_tsc : Nat) :
    Option ConsumeState :=
  let st := consume_state fuel tsc sleep_us sample_tsc timeout_tsc
  if st.now < consume_end tsc timeout_tsc then none else some st

/-- Source `cpu_workload` (lines 138-153): calibration followed by the
duty-cycle loop. The thread's first two counter readings are taken by
`cpu_info_init`, the following ones by `consume`. The outer `none` means
that the thread has not returned (division by zero, or the loop still runs
after `fuel` iterations). -/
def cpu_workload (fuel : Nat) (sample_ms time_out work_load : Int) (tsc : Nat → Nat) :
    Option ConsumeState :=
  match cpu_info_init sample_ms time_out (tsc 0) (tsc 1) with
  | none => none
  | some (sample_tsc, timeout_tsc) =>
    consume fuel (fun k => tsc (k + 2)) (usec_sleep sample_ms work_load) sample_tsc timeout_tsc

/-! ## Reading `/proc/stat`

`fscanf` is modelled on the list of characters still unread, for the
directives the two format strings of `get_online_cpus` use. -/

/-- C `isspace` in the "C" locale. -/
def isspace (c : Char) : Bool :=
  c = ' ' || c = '\n' || c = '\t' || c = '\r' || c = '\x0b' || c = '\x0c'

/-- Directives of a `fscanf` format. -/
inductive Directive where
  /-- An ordinary character, matched literally. -/
  | lit (c : Char)
  /-- White space: skips any amount of white space in the input. -/
  | space
  /-- The directive `%*d`: a decimal integer, matched and discarded. -/
  | skip_d
  /-- The directive `%u`: a decimal integer, stored through the next pointer. -/
  | conv_u
  deriving DecidableEq, Repr

/-- Directives of a format string. -/
def parse_format : List Char → List Directive
  | '%' :: '*' :: 'd' :: cs => Directive.skip_d :: parse_format cs
  | '%' :: 'u' :: cs => Directive.conv_u :: parse_format cs
  | c :: cs => (if isspace c then Directive.space else Directive.lit c) :: parse_format cs
  | [] => []

/-- Input with leading white space removed. -/
def skip_space : List Char → List Char
  | [] => []
  | c :: cs => if isspace c then skip_space cs else c :: cs

/-- Value of a sequence of decimal digits read left to right. -/
def digits_value (acc : Nat) : List Char → Nat
  | [] => acc
  | c :: cs => digits_value (acc * 10 + (c.toNat - '0'.toNat)) cs

/-- Outcome of matching one decimal integer. -/
inductive ScanInt where
  /-- End of input before any character of the number. -/
  | input_failure
  /-- The input does not start with a number; `rest` is the unread input (a
  sign that was read before the failure is consumed). -/
  | matching_failure (rest : List Char)
  /-- A number was read; `rest` is the unread input. -/
  | value (v : Int) (rest : List Char)
  deriving DecidableEq, Repr

/-- Matching of a decimal integer (`%d`, `%u`) after leading white space has
been skipped: an optional sign followed by at least one digit. When no digit
follows, the directive fails with the sign, if any, already consumed. -/
def scan_int (inp : List Char) : ScanInt :=
  match inp with
  | [] => ScanInt.input_failure
  | c :: cs =>
    let body := if c = '-' ∨ c = '+' then cs else c :: cs
    let ds := body.takeWhile Char.isDigit
    if ds = [] then ScanInt.matching_failure body
    else
      let v : Int := digits_value 0 ds
      ScanInt.value (if c = '-' then -v else v) (body.dropWhile Char.isDigit)

/-- What a call of `fscanf` leaves behind: its return value, the value
stored through the pointer argument (if a `%u` was converted) and the unread
input. -/
structure ScanResult where
  ret : Int
  stored : Option Nat
  rest : List Char
  deriving DecidableEq, Repr

/-- Return value of `fscanf` on an input failure: `EOF` if nothing has been
assigned yet, the number of assignments otherwise. -/
def eof_or (assigned : Nat) : Int := if assigned = 0 then -1 else assigned

/-- Execution of the directives of a format on the input. `assigned` counts
the assignments made so far. -/
def fscanf_go : List Directive → List Char → Nat → Option Nat → ScanResult
  | [], inp, assigned, stored => ⟨assigned, stored, inp⟩
  | Directive.lit c :: ds, inp, assigned, stored =>
    match inp with
    | [] => ⟨eof_or assigned, stored, []⟩
    | x :: xs =>
      if x = c then fscanf_go ds xs assigned stored else ⟨assigned, stored, x :: xs⟩
  | Directive.space :: ds, inp, assigned, stored =>
    fscanf_go ds (skip_space inp) assigned stored
  | Directive.skip_d :: ds, inp, assigned, stored =>
    match scan_int (skip_space inp) with
    | ScanInt.input_failure => ⟨eof_or assigned, stored, []⟩
    | ScanInt.matching_failure rest => ⟨assigned, stored, rest⟩
    | ScanInt.value _ rest => fscanf_go ds rest assigned stored
  | Directive.conv_u :: ds, inp, assigned, stored =>
    match scan_int (skip_space inp) with
    | ScanInt.input_failure => ⟨eof_or assigned, stored, []⟩
    | ScanInt.matching_failure rest => ⟨assigned, stored, rest⟩
    | ScanInt.value v rest => fscanf_go ds rest (assigned + 1) (some (to_u32 v))

/-- The call `fscanf(fp, format, ...)` on the unread input `inp`. -/
def fscanf (inp : List Char) (format : String) : ScanResult :=
  fscanf_go (parse_format format.toList) inp 0 none

/-! ## Process outcomes -/

/-- Observable actions of the main thread. -/
inductive Event where
  /-- The usage line printed by `help`. -/
  | usage
  /-- The diagnostic printed by `err_exit` through `perror`. -/
  | perror (msg : String)
  /-- The line "Starting workload on cpu ... with load ..., lasts for ...
  seconds...". -/
  | starting (cpu : Nat) (work_load time_out : Int)
  /-- The call `pthread_create(&cpu_info[cpu].thread, ...)` and its return
  value; a worker thread exists afterwards only if the value is 0. -/
  | pthread_create (cpu : Nat) (ret : Int)
  /-- The call `pthread_join(cpu_info[cpu].thread, NULL)` and its return
  value. -/
  | pthread_join (cpu : Nat) (ret : Int)
  /-- The line "Done.". -/
  | done
  deriving DecidableEq, Repr

/-- How the process ended: what the main thread did and the exit status. -/
structure Outcome where
  trace : List Event
  status : Int
  deriving DecidableEq, Repr

/-- Result of a function of the main thread: either the process exits inside
the function, or the function returns a value. -/
inductive Ret (α : Type) where
  | exited (o : Outcome)
  | returned (a : α)
  deriving DecidableEq, Repr

/-- What the program obtains from the platform. -/
structure Platform where
  /-- Content of `/proc/stat`; `none` when `fopen` fails. -/
  proc_stat : Option (List Char)
  /-- Indeterminate initial value of the local `cpu_num` of
  `get_online_cpus`, which is declared without an initialiser (line 49). -/
  cpu_num0 : Nat
  /-- Whether `malloc` of the given size succeeds. -/
  malloc_ok : Nat → Bool
  /-- Return value of `pthread_attr_setaffinity_np` for the mask of a cpu. -/
  setaffinity : Nat → Int
  /-- Return value of `pthread_create` for the worker of a cpu. -/
  create : Nat → Int
  /-- Return value of `pthread_join` for the thread handle of a cpu. -/
  join : Nat → Int

/-- Source `err_exit` (lines 40-44): `perror(msg); exit(1)` after the main
thread has done `tr`. -/
def err_exit (tr : List Event) (msg : String) : Outcome :=
  ⟨tr ++ [Event.perror msg], 1⟩

/-- Source `help` (lines 196-201): the usage line, then `exit(1)`. -/
def help (tr : List Event) : Outcome :=
  ⟨tr ++ [Event.usage], 1⟩

/-- The `while (1)` loop of `get_online_cpus` (lines 61-66) on the unread
input, for at most `fuel` iterations. -/
def count_cpus : Nat → List Char → Nat → Nat
  | 0, _, cpu_num => cpu_num
  | fuel + 1, inp, cpu_num =>
    let r := fscanf inp "cpu%u %*d %*d %*d %*d %*d %*d %*d %*d %*d %*d\n"
    if r.ret ≠ 1 then cpu_num
    else count_cpus fuel r.rest ((cpu_num + 1) % U64)

/-- Source `get_online_cpus` (lines 46-70). Every iteration of the loop that
does not leave it consumes input, so the length of the input bounds the
number of iterations. -/
def get_online_cpus (P : Platform) : Ret Nat :=
  match P.proc_stat with
  | none => Ret.exited (err_exit [] "Open failed /proc/stat")
  | some inp =>
    let r := fscanf inp "cpu %*d %*d %*d %*d %*d %*d %*d %*d %*d %*d\n"
    if r.ret ≠ 0 then Ret.exited (err_exit [] "Failed to parse format")
    else Ret.returned (count_cpus (r.rest.length + 1) r.rest (P.cpu_num0 % U64))

/-- Size of `struct cpu_info`: two `unsigned long long` and a `pthread_t`. -/
def SIZEOF_CPU_INFO : Nat := 24

/-- Source `cpus_init` (lines 95-104); the result is `online_cpus`. -/
def cpus_init (P : Platform) : Ret Nat :=
  match get_online_cpus P with
  | Ret.exited o => Ret.exited o
  | Ret.returned online_cpus =>
    if online_cpus = 0 then Ret.exited (err_exit [] "Get cpu online number failed")
    else if P.malloc_ok ((SIZEOF_CPU_INFO * online_cpus) % U64) then Ret.returned online_cpus
    else Ret.exited (err_exit [] "Allocate cpu_info array failed")

/-! ## Command line and orchestration -/

/-- The globals set by `cmdline` (lines 32-36). -/
structure Config where
  sample_ms : Int
  time_out : Int
  work_load : Int
  thread_count : Nat
  start_cpu : Nat
  deriving DecidableEq, Repr

/-- Initial values of the globals: the three defaults, and zero for the two
`static unsigned long` without initialiser. -/
def Config.initial : Config :=
  { sample_ms := 10, time_out := 10, work_load := 100, thread_count := 0, start_cpu := 0 }

/-- Source `cmdline` (lines 203-231). The argument lists what the successive
calls of `getopt_long` return: the option character together with the number
`atol` or `atoi` makes of `optarg`. `none` means that `help` was called. -/
def cmdline : List (Char × Int) → Config → Option Config
  | [], cfg => some cfg
  | (opt, v) :: rest, cfg =>
    if opt = 's' then cmdline rest { cfg with start_cpu := to_u64 v }
    else if opt = 'c' then cmdline rest { cfg with thread_count := to_u64 v }
    else if opt = 't' then cmdline rest { cfg with time_out := wrap_int v }
    else if opt = 'l' then cmdline rest { cfg with work_load := wrap_int v }
    else if opt = 'p' then cmdline rest { cfg with sample_ms := wrap_int v }
    else none

/-- The first `for` loop of `start_worker_threads` (lines 165-175) over the
values `i` takes; `tr` is what the main thread has done so far. -/
def spawn_loop (P : Platform) (cfg : Config) : List Nat → List Event → Ret (List Event)
  | [], tr => Ret.returned tr
  | i :: rest, tr =>
    if P.setaffinity i ≠ 0 then
      Ret.exited (err_exit tr "pthread_attr_setaffinity_np failed")
    else
      spawn_loop P cfg rest
        (tr ++ [Event.starting i cfg.work_load cfg.time_out, Event.pthread_create i (P.create i)])

/-- The second `for` loop of `start_worker_threads` (lines 179-183). -/
def join_loop (P : Platform) : List Nat → List Event → Ret (List Event)
  | [], tr => Ret.returned tr
  | i :: rest, tr =>
    if P.join i ≠ 0 then
      Ret.exited (err_exit (tr ++ [Event.pthread_join i (P.join i)]) "pthread_join failed\n")
    else join_loop P rest (tr ++ [Event.pthread_join i (P.join i)])

/-- Source `start_worker_threads` (lines 155-185). Both loops run `i` from
`start_cpu` while `i < end`, that is over `start_cpu, ..., end - 1` (no value
when `end ≤ start_cpu`); `end` is an `unsigned long` sum. The result is the
trace on return, or the outcome of the process if it exits. -/
def start_worker_threads (P : Platform) (cfg : Config) : Ret (List Event) :=
  let i := cfg.start_cpu
  let end_ := (i + cfg.thread_count) % U64
  match spawn_loop P cfg (List.range' i (end_ - i)) [] with
  | Ret.exited o => Ret.exited o
  | Ret.returned tr =>
    match join_loop P (List.range' i (end_ - i)) tr with
    | Ret.exited o => Ret.exited o
    | Ret.returned tr => Ret.returned (tr ++ [Event.done])

/-- Source `main` (lines 240-252). -/
def main (opts : List (Char × Int)) (P : Platform) : Outcome :=
  match cmdline opts Config.initial with
  | none => help []
  | some cfg =>
    match cpus_init P with
    | Ret.exited o => o
    | Ret.returned online_cpus =>
      if verify_param cfg.start_cpu cfg.thread_count online_cpus then
        match start_worker_threads P cfg with
        | Ret.exited o => o
        | Ret.returned tr => ⟨tr, 0⟩
      else help []

/-- Trace of a run of `start_worker_threads`, whether it returns or exits. -/
def trace_of : Ret (List Event) → List Event
  | Ret.exited o => o.trace
  | Ret.returned tr => tr

/-- Index of the `cpu_info` entry an action of the main thread accesses. -/
def cpu_info_index : Event → Option Nat
  | Event.pthread_create cpu _ => some cpu
  | Event.pthread_join cpu _ => some cpu
  | _ => none

/-- Indices at which a trace accesses the `cpu_info` table, in order. -/
def cpu_info_accesses (tr : List Event) : List Nat := tr.filterMap cpu_info_index

/-- Cpus named by the "Starting workload" lines of a trace, in order. -/
def started_cpus (tr : List Event) : List Nat :=
  tr.filterMap fun e =>
    match e with
    | Event.starting cpu _ _ => some cpu
    | _ => none

/-- Cpus for which a trace has a `pthread_create` that returned 0, in order:
the worker threads spawned. -/
def spawned_cpus (tr : List Event) : List Nat :=
  tr.filterMap fun e =>
    match e with
    | Event.pthread_create cpu ret => if ret = 0 then some cpu else none
    | _ => none

/-- Trace of a run of `start_worker_threads` over the cpus `l` in which every
affinity setting, every thread creation and every join succeeds. -/
def full_run_trace (cfg : Config) (l : List Nat) : List Event :=
  l.flatMap (fun i =>
      [Event.starting i cfg.work_load cfg.time_out, Event.pthread_create i 0]) ++
    l.map (fun i => Event.pthread_join i 0) ++ [Event.done]

/-! ## Well-formed `/proc/stat` contents -/

/-- A non-empty sequence of decimal digits. -/
def is_number (f : List Char) : Prop := f ≠ [] ∧ ∀ c, c ∈ f → c.isDigit = true

/-- The fields of a line, each preceded by a blank. -/
def render_fields : List (List Char) → List Char
  | [] => []
  | f :: fs => ' ' :: (f ++ render_fields fs)

/-- A line of `/proc/stat` (a label, the fields and a newline) followed by
the rest of the file. -/
def stat_line (label : List Char) (fields : List (List Char)) (rest : List Char) :
    List Char :=
  label ++ (render_fields fields ++ '\n' :: rest)

/-- The per-CPU lines of a `/proc/stat`, each given by the digits of the cpu
id and its fields, followed by the rest of the file. -/
def cpu_lines : List (List Char × List (List Char)) → List Char → List Char
  | [], tail => tail
  | c :: cs, tail => stat_line ('c' :: 'p' :: 'u' :: c.1) c.2 (cpu_lines cs tail)

/-- A `/proc/stat`: the aggregate line (the label `cpu` and a blank, then the
fields), the per-CPU lines, and the rest of the file. -/
def proc_stat_content (agg : List (List Char)) (cpus : List (List Char × List (List Char)))
    (tail : List Char) : List Char :=
  stat_line ['c', 'p', 'u', ' '] agg (cpu_lines cpus tail)

/-- The directives of `n` repetitions of ` %*d` followed by `ds`. -/
def field_directives : Nat → List Directive → List Directive
  | 0, ds => ds
  | n + 1, ds => Directive.space :: Directive.skip_d :: field_directives n ds

/-! ## Concrete platforms used in the examples -/

/-- A `/proc/stat` with the aggregate line, two per-CPU lines and two further
lines. -/
def proc_stat_two_cpus : String :=
  "cpu  2255 34 2290 22625563 6290 127 456 0 0 0\n" ++
  "cpu0 1132 34 1441 11311718 3675 127 438 0 0 0\n" ++
  "cpu1 1123 0 849 11313845 2614 0 18 0 0 0\n" ++
  "intr 114930548 113199788 3 0 5 263 0 4\n" ++
  "ctxt 1990473\n"

/-- A `/proc/stat` with the aggregate line and no per-CPU line. -/
def proc_stat_no_cpu : String :=
  "cpu  2255 34 2290 22625563 6290 127 456 0 0 0\n" ++
  "intr 114930548 113199788 3 0 5 263 0 4\n" ++
  "ctxt 1990473\n"

/-- A platform on which every call succeeds; the local `cpu_num` of
`get_online_cpus` happens to start at `cpu_num0`. -/
def platform_ok (stat : String) (cpu_num0 : Nat) : Platform :=
  { proc_stat := some stat.toList
    cpu_num0 := cpu_num0
    malloc_ok := fun _ => true
    setaffinity := fun _ => 0
    create := fun _ => 0
    join := fun _ => 0 }

/-- The platform `platform_ok proc_stat_two_cpus 0` on which `pthread_create`
fails with `EAGAIN` (11) for cpu 0 and `pthread_join` returns `join0` for the
handle of cpu 0, which was never written. -/
def platform_create_fails (join0 : Int) : Platform :=
  { proc_stat := some proc_stat_two_cpus.toList
    cpu_num0 := 0
    malloc_ok := fun _ => true
    setaffinity := fun _ => 0
    create := fun i => if i = 0 then 11 else 0
    join := fun i => if i = 0 then join0 else 0 }

/-! ## Machine arithmetic: lemmas -/

theorem U64_eq : U64 = 18446744073709551616 := by norm_num [U64]

theorem U32_eq : U32 = 4294967296 := by norm_num [U32]

theorem wrap_int_of_range (x : Int) (h1 : -2147483648 ≤ x) (h2 : x < 2147483648) :
    wrap_int x = x := by
  unfold wrap_int
  omega

theorem to_u64_of_range (x : Int) (h1 : 0 ≤ x) (h2 : x < 18446744073709551616) :
    to_u64 x = x.toNat := by
  unfold to_u64
  rw [U64_eq]
  omega

theorem to_u32_of_range (x : Int) (h1 : 0 ≤ x) (h2 : x < 4294967296) :
    to_u32 x = x.toNat := by
  unfold to_u32
  rw [U32_eq]
  omega

theorem sub_u64_of_le (a b : Nat) (hb : b ≤ a) (ha : a < 18446744073709551616) :
    sub_u64 a b = a - b := by
  unfold sub_u64
  rw [U64_eq]
  omega

/-! ## Parameter validation: theorems -/

/-- Claim C2, as stated, fails: for `time_out = 2000`, `sample_ms = 10000`
and a tick delta of `30000000000` the 64-bit product
`time_out*1000000*sample_tsc` wraps, and `cpu_info_init` stores
`465976777887` where `time_out*1000*sample_tsc/sample_ms` is
`6000000000000`. -/
theorem cpu_info_init_timeout_wraps :
    cpu_info_init 10000 2000 0 30000000000 = some (30000000000, 465976777887) ∧
      2000 * 1000 * 30000000000 / 10000 = 6000000000000 ∧
      465976777887 ≠ 2000 * 1000 * 30000000000 / 10000 := by
  decide

/-- Claim C2, amended: for every tick delta `sample_tsc`, every `int`
`sample_ms > 0` and every `time_out >= 0` such that `time_out*1000000` fits
in `int` and `time_out*1000000*sample_tsc` is below `2^64`, the value
`cpu_info_init` stores in `timeout_tsc` is
`time_out*1000*sample_tsc/sample_ms` exactly. -/
theorem cpu_info_init_timeout (sample_ms time_out : Int) (tsc0 tsc1 : Nat)
    (hms : 0 < sample_ms) (hms_int : sample_ms < 2 ^ 31) (hto : 0 ≤ time_out)
    (hto_int : time_out * 1000000 < 2 ^ 31)
    (hprod : time_out.toNat * 1000000 * sub_u64 tsc1 tsc0 < U64) :
    cpu_info_init sample_ms time_out tsc0 tsc1 =
      some (sub_u64 tsc1 tsc0,
        time_out.toNat * 1000 * sub_u64 tsc1 tsc0 / sample_ms.toNat) := by
  have h1 : wrap_int (time_out * 1000000) = time_out * 1000000 :=
    wrap_int_of_range _ (by omega) (by omega)
  have h2 : to_u64 (time_out * 1000000) = time_out.toNat * 1000000 := by
    rw [to_u64_of_range _ (by omega) (by omega)]
    omega
  have h3 : to_u64 sample_ms = sample_ms.toNat :=
    to_u64_of_range _ (by omega) (by omega)
  have h4 : sample_ms.toNat ≠ 0 := by omega
  unfold cpu_info_init
  simp only [h1, h2, h3, h4, if_false, Nat.mod_eq_of_lt hprod]
  rw [Nat.div_div_eq_div_mul, Nat.mul_comm sample_ms.toNat 1000,
    ← Nat.div_div_eq_div_mul]
  congr 3
  have h5 : time_out.toNat * 1000000 * sub_u64 tsc1 tsc0 =
      time_out.toNat * 1000 * sub_u64 tsc1 tsc0 * 1000 := by ring
  rw [h5, Nat.mul_div_cancel _ (by norm_num)]

/-- Witness of `cpu_info_init_timeout` at the defaults (`sample_ms = 10`,
`time_out = 10`) with a tick delta of `30000000`. -/
theorem cpu_info_init_timeout_witness :
    cpu_info_init 10 10 5 30000005 =
      some (sub_u64 30000005 5,
        (10 : Int).toNat * 1000 * sub_u64 30000005 5 / (10 : Int).toNat) :=
  cpu_info_init_timeout 10 10 5 30000005 (by decide) (by decide) (by decide) (by decide)
    (by decide)

/-- Claim C3: for `sample_ms >= 0` with `sample_ms*1000` representable in
`int` and `0 <= work_load <= 100`, the idle sleep computed in `cpu_workload`
is exactly `sample_ms*10*(100 - work_load)` microseconds; for
`sample_ms = 10` it is 0 at load 100, 10000 at load 0 and 5000 at load 50. -/
theorem usec_sleep_exact (sample_ms work_load : Int) (hms : 0 ≤ sample_ms)
    (hms_int : sample_ms * 1000 < 2 ^ 31) (hl0 : 0 ≤ work_load) (hl100 : work_load ≤ 100) :
    ((usec_sleep sample_ms work_load : Nat) : Int) = sample_ms * 10 * (100 - work_load) ∧
      usec_sleep 10 100 = 0 ∧ usec_sleep 10 0 = 10000 ∧ usec_sleep 10 50 = 5000 := by
  refine ⟨?_, by decide, by decide, by decide⟩
  obtain ⟨m, rfl⟩ := Int.eq_ofNat_of_zero_le hms
  obtain ⟨l, rfl⟩ := Int.eq_ofNat_of_zero_le hl0
  have hm : m * 1000 < 2147483648 := by omega
  have hl : l ≤ 100 := by omega
  have h1 : wrap_int ((m : Int) * 1000) = (m : Int) * 1000 :=
    wrap_int_of_range _ (by omega) (by omega)
  have h2 : to_u64 ((m : Int) * 1000) = m * 1000 := by
    rw [to_u64_of_range _ (by omega) (by omega)]
    omega
  have h3 : to_u32 (l : Int) = l := by
    rw [to_u32_of_range _ (by omega) (by omega)]
    omega
  have hml : m * l ≤ m * 100 := Nat.mul_le_mul_left m hl
  have h4 : get_percent (m * 1000) l = m * l * 10 := by
    unfold get_percent
    rw [U64_eq]
    have : m * 1000 * l = m * l * 10 * 100 := by ring
    rw [this, Nat.mod_eq_of_lt (by omega), Nat.mul_div_cancel _ (by norm_num)]
  unfold usec_sleep
  rw [h1, h2, h3, h4, sub_u64_of_le _ _ (by omega) (by omega)]
  have h5 : ((m * 1000 - m * l * 10 : Nat) : Int) = (m : Int) * 1000 - (m : Int) * l * 10 := by
    rw [Nat.cast_sub (by omega)]
    push_cast
    ring
  rw [h5]
  ring

/-- Witness of `usec_sleep_exact` at `sample_ms = 10`, `work_load = 30`. -/
theorem usec_sleep_exact_witness :
    ((usec_sleep 10 30 : Nat) : Int) = 10 * 10 * (100 - 30) ∧
      usec_sleep 10 100 = 0 ∧ usec_sleep 10 0 = 10000 ∧ usec_sleep 10 50 = 5000 :=
  usec_sleep_exact 10 30 (by decide) (by decide) (by decide) (by decide)

/-! ## The duty-cycle loop: lemmas -/

theorem consume_run_stable (tsc : Nat → Nat) (sleep_us sample_tsc end_ n : Nat)
    (st : ConsumeState) (h : ¬ st.now < end_) :
    consume_run tsc sleep_us sample_tsc end_ n st = st := by
  cases n with
  | zero => rfl
  | succ n => simp [consume_run, h]

theorem consume_run_add (tsc : Nat → Nat) (sleep_us sample_tsc end_ : Nat) (a b : Nat) :
    ∀ st : ConsumeState,
      consume_run tsc sleep_us sample_tsc end_ (a + b) st =
        consume_run tsc sleep_us sample_tsc end_ b
          (consume_run tsc sleep_us sample_tsc end_ a st) := by
  induction a with
  | zero => intro st; simp [consume_run]
  | succ a ih =>
    intro st
    rw [Nat.add_right_comm]
    by_cases h : st.now < end_
    · simp only [consume_run, h, if_true]
      exact ih _
    · simp only [consume_run, h, if_false]
      exact (consume_run_stable tsc sleep_us sample_tsc end_ b st h).symm

theorem consume_step_reads (tsc : Nat → Nat) (sleep_us sample_tsc : Nat) (st : ConsumeState) :
    (consume_step tsc sleep_us sample_tsc st).reads = st.reads + 1 ∧
      (consume_step tsc sleep_us sample_tsc st).now = tsc st.reads := by
  simp only [consume_step]
  split <;> simp

theorem consume_step_sleeps (tsc : Nat → Nat) (sleep_us sample_tsc : Nat) (st : ConsumeState) :
    st.sleeps ≤ (consume_step tsc sleep_us sample_tsc st).sleeps ∧
      (consume_step tsc sleep_us sample_tsc st).sleeps ≤ st.sleeps + 1 := by
  simp only [consume_step]
  split <;> simp

theorem consume_run_sleeps_mono (tsc : Nat → Nat) (sleep_us sample_tsc end_ n : Nat) :
    ∀ st : ConsumeState,
      st.sleeps ≤ (consume_run tsc sleep_us sample_tsc end_ n st).sleeps := by
  induction n with
  | zero => intro st; simp [consume_run]
  | succ n ih =>
    intro st
    by_cases h : st.now < end_
    · simp only [consume_run, h, if_true]
      exact le_trans (consume_step_sleeps tsc sleep_us sample_tsc st).1 (ih _)
    · simp [consume_run, h]

/-- While the readings stay below `end_`, every iteration takes one reading. -/
theorem consume_run_reads (tsc : Nat → Nat) (sleep_us sample_tsc end_ : Nat) (j : Nat) :
    ∀ st : ConsumeState, 1 ≤ st.reads → st.now = tsc (st.reads - 1) →
      (∀ i, i < j → tsc (st.reads - 1 + i) < end_) →
      (consume_run tsc sleep_us sample_tsc end_ j st).reads = st.reads + j ∧
        (consume_run tsc sleep_us sample_tsc end_ j st).now = tsc (st.reads - 1 + j) ∧
        (consume_run tsc sleep_us sample_tsc end_ j st).sleeps ≤ st.sleeps + j := by
  induction j with
  | zero => intro st _ hnow _; simp [consume_run, hnow]
  | succ j ih =>
    intro st hr hnow hlt
    have h0 : st.now < end_ := by
      have := hlt 0 (Nat.succ_pos j)
      simpa [hnow] using this
    obtain ⟨hr', hnow'⟩ := consume_step_reads tsc sleep_us sample_tsc st
    have hs' := (consume_step_sleeps tsc sleep_us sample_tsc st).2
    have key := ih (consume_step tsc sleep_us sample_tsc st) (by omega)
      (by rw [hnow', hr']; congr 1)
      (by
        intro i hi
        have := hlt (i + 1) (by omega)
        rw [hr']
        have e : st.reads + 1 - 1 + i = st.reads - 1 + (i + 1) := by omega
        rw [e]
        exact this)
    simp only [consume_run, h0, if_true]
    rw [hr'] at key
    have e : st.reads + 1 - 1 + j = st.reads - 1 + (j + 1) := by omega
    rw [e] at key
    refine ⟨by omega, key.2.1, by omega⟩

/-- A counter that strictly increases while it is below the deadline reaches
the deadline. -/
theorem tsc_reaches_deadline (tsc : Nat → Nat) (deadline : Nat)
    (hinc : ∀ k, tsc k < deadline → tsc k < tsc (k + 1)) :
    ∃ n, deadline ≤ tsc n := by
  by_contra hne
  push_neg at hne
  have hge : ∀ n, tsc 0 + n ≤ tsc n := by
    intro n
    induction n with
    | zero => simp
    | succ n ih =>
      have := hinc n (hne n)
      omega
  have h1 := hge deadline
  have h2 := hne deadline
  omega

/-- Window invariant and sleep bound of the loop of `consume`, carried from
one loop head to the state `n` iterations later, as long as the window end
does not wrap. -/
theorem consume_run_invariant (tsc : Nat → Nat) (sleep_us sample_tsc timeout_tsc start : Nat)
    (bound : Nat) (hs : 0 < sample_tsc)
    (hwin : start + (bound + 1) * sample_tsc < U64) (n : Nat) :
    ∀ st : ConsumeState,
      st.end_sample = start + (st.sleeps + 1) * sample_tsc →
      (st.now < start + timeout_tsc → st.sleeps * sample_tsc < timeout_tsc) →
      st.sleeps ≤ (timeout_tsc + sample_tsc - 1) / sample_tsc →
      (consume_run tsc sleep_us sample_tsc (start + timeout_tsc) n st).sleeps ≤ bound →
      (consume_run tsc sleep_us sample_tsc (start + timeout_tsc) n st).end_sample =
          start + ((consume_run tsc sleep_us sample_tsc (start + timeout_tsc) n st).sleeps + 1)
            * sample_tsc ∧
        (consume_run tsc sleep_us sample_tsc (start + timeout_tsc) n st).sleeps ≤
          (timeout_tsc + sample_tsc - 1) / sample_tsc := by
  induction n with
  | zero => intro st hinv _ hle _; exact ⟨hinv, hle⟩
  | succ n ih =>
    intro st hinv hlt hle hb
    by_cases h : st.now < start + timeout_tsc
    · simp only [consume_run, h, if_true] at hb ⊢
      have hk := hlt h
      have hmono := consume_run_sleeps_mono tsc sleep_us sample_tsc (start + timeout_tsc) n
        (consume_step tsc sleep_us sample_tsc st)
      have hsb : (consume_step tsc sleep_us sample_tsc st).sleeps ≤ bound := le_trans hmono hb
      refine ih _ ?_ ?_ ?_ hb
      · -- the window end after the iteration
        simp only [consume_step] at hsb ⊢
        split
        · rename_i hgt
          simp only [hgt, if_true] at hsb
          have h1 : (st.sleeps + 1 + 1) * sample_tsc ≤ (bound + 1) * sample_tsc :=
            Nat.mul_le_mul_right _ (by omega)
          have h2 : st.end_sample + sample_tsc = start + (st.sleeps + 1 + 1) * sample_tsc := by
            rw [hinv]; ring
          show (st.end_sample + sample_tsc) % U64 = _
          rw [h2, Nat.mod_eq_of_lt (by omega)]
        · exact hinv
      · -- a sleep in an iteration after which the loop goes on
        simp only [consume_step]
        split
        · rename_i hgt
          intro hnow
          simp only at hnow ⊢
          rw [hinv] at hgt
          omega
        · intro _
          exact hk
      · -- the number of sleeps
        simp only [consume_step]
        split
        · show st.sleeps + 1 ≤ _
          rw [Nat.le_div_iff_mul_le hs]
          have : (st.sleeps + 1) * sample_tsc = st.sleeps * sample_tsc + sample_tsc := by ring
          omega
        · exact hle
    · simp only [consume_run, h, if_false] at hb ⊢
      exact ⟨hinv, hle⟩

/-- The number of sleeps after any number of iterations is at most that of
the state `consume` returns. -/
theorem consume_state_sleeps_le (tsc : Nat → Nat) (sleep_us sample_tsc timeout_tsc : Nat)
    (fuel : Nat) (st : ConsumeState)
    (hrun : consume fuel tsc sleep_us sample_tsc timeout_tsc = some st) (n : Nat) :
    (consume_state n tsc sleep_us sample_tsc timeout_tsc).sleeps ≤ st.sleeps := by
  unfold consume at hrun
  simp only at hrun
  split at hrun
  · exact absurd hrun (by simp)
  · rename_i hstop
    have hst : st = consume_state fuel tsc sleep_us sample_tsc timeout_tsc := by
      simpa using hrun.symm
    subst hst
    unfold consume_state at hstop ⊢
    rcases Nat.le_total n fuel with hle | hle
    · obtain ⟨d, rfl⟩ := Nat.exists_eq_add_of_le hle
      rw [consume_run_add]
      exact consume_run_sleeps_mono _ _ _ _ _ _
    · obtain ⟨d, rfl⟩ := Nat.exists_eq_add_of_le hle
      rw [consume_run_add, consume_run_stable _ _ _ _ _ _ hstop]

/-! ## The duty-cycle loop: theorems -/

/-- Claim C8: with the cycle counter given as the sequence `tsc` of its
readings, strictly increasing as long as it is below the deadline (every
strictly increasing sequence is), and `start + timeout_tsc` not wrapping 64
bits, `consume` terminates: with `n` the index of the first reading that is
`>= start + timeout_tsc`, it is still running after fewer than `n` iterations
and has returned after `n`, having taken exactly the readings `0..n` and
slept at most once per iteration; when `timeout_tsc = 0` it takes only the
initial reading and does not sleep. -/
theorem consume_terminates (tsc : Nat → Nat) (sleep_us sample_tsc timeout_tsc : Nat)
    (hinc : ∀ k, tsc k < tsc 0 + timeout_tsc → tsc k < tsc (k + 1))
    (hnowrap : tsc 0 + timeout_tsc < U64) :
    ∃ n st,
      (∀ k, k < n → tsc k < tsc 0 + timeout_tsc) ∧ tsc 0 + timeout_tsc ≤ tsc n ∧
      (∀ fuel, n ≤ fuel → consume fuel tsc sleep_us sample_tsc timeout_tsc = some st) ∧
      (∀ fuel, fuel < n → consume fuel tsc sleep_us sample_tsc timeout_tsc = none) ∧
      st.reads = n + 1 ∧ st.now = tsc n ∧ st.sleeps ≤ n ∧
      (timeout_tsc = 0 → n = 0 ∧ st.reads = 1 ∧ st.sleeps = 0) := by
  classical
  have hex := tsc_reaches_deadline tsc (tsc 0 + timeout_tsc) hinc
  have hend : consume_end tsc timeout_tsc = tsc 0 + timeout_tsc := by
    unfold consume_end
    exact Nat.mod_eq_of_lt hnowrap
  have hbelow : ∀ k, k < Nat.find hex → tsc k < tsc 0 + timeout_tsc := by
    intro k hk
    exact Nat.lt_of_not_le (Nat.find_min hex hk)
  have hreach : tsc 0 + timeout_tsc ≤ tsc (Nat.find hex) := Nat.find_spec hex
  have hstate : ∀ j, j ≤ Nat.find hex →
      (consume_state j tsc sleep_us sample_tsc timeout_tsc).reads = j + 1 ∧
        (consume_state j tsc sleep_us sample_tsc timeout_tsc).now = tsc j ∧
        (consume_state j tsc sleep_us sample_tsc timeout_tsc).sleeps ≤ j := by
    intro j hj
    have := consume_run_reads tsc sleep_us sample_tsc (consume_end tsc timeout_tsc) j
      (consume_init tsc sample_tsc) (by simp [consume_init]) (by simp [consume_init])
      (by
        intro i hi
        rw [hend]
        simpa [consume_init] using hbelow i (by omega))
    simpa [consume_state, consume_init, Nat.add_comm] using this
  obtain ⟨hr, hn, hsl⟩ := hstate (Nat.find hex) le_rfl
  refine ⟨Nat.find hex, consume_state (Nat.find hex) tsc sleep_us sample_tsc timeout_tsc,
    hbelow, hreach, ?_, ?_, hr, hn, hsl, ?_⟩
  · intro fuel hfuel
    obtain ⟨d, rfl⟩ := Nat.exists_eq_add_of_le hfuel
    have hstop : ¬ (consume_state (Nat.find hex) tsc sleep_us sample_tsc timeout_tsc).now <
        consume_end tsc timeout_tsc := by
      rw [hn, hend]
      omega
    have heq : consume_state (Nat.find hex + d) tsc sleep_us sample_tsc timeout_tsc =
        consume_state (Nat.find hex) tsc sleep_us sample_tsc timeout_tsc := by
      unfold consume_state at hstop ⊢
      rw [consume_run_add, consume_run_stable _ _ _ _ _ _ hstop]
    unfold consume
    simp only [heq, hstop, if_false]
  · intro fuel hfuel
    have hnow := (hstate fuel (le_of_lt hfuel)).2.1
    have hlt := hbelow fuel hfuel
    unfold consume
    simp only [hnow, hend, hlt, if_true]
  · intro h0
    have hz : Nat.find hex = 0 := by
      rw [Nat.find_eq_zero]
      omega
    exact ⟨hz, by omega, by omega⟩

/-- Witness of `consume_terminates` for the readings `0, 10, 20, ...` with
`sample_tsc = 25` and `timeout_tsc = 100`. -/
theorem consume_terminates_witness :
    ∃ n st,
      (∀ k, k < n → (fun k => 10 * k) k < (fun k => 10 * k) 0 + 100) ∧
      (fun k => 10 * k) 0 + 100 ≤ (fun k => 10 * k) n ∧
      (∀ fuel, n ≤ fuel → consume fuel (fun k => 10 * k) 5 25 100 = some st) ∧
      (∀ fuel, fuel < n → consume fuel (fun k => 10 * k) 5 25 100 = none) ∧
      st.reads = n + 1 ∧ st.now = (fun k => 10 * k) n ∧ st.sleeps ≤ n ∧
      (100 = 0 → n = 0 ∧ st.reads = 1 ∧ st.sleeps = 0) :=
  consume_terminates (fun k => 10 * k) 5 25 100 (by intro k _; simp) (by decide)

/-- Claim C9: for every run of `consume` that returns, with `sample_tsc > 0`
and neither `start + timeout_tsc` nor the window end wrapping 64 bits, the
window end after any number of iterations is
`start + (k+1)*sample_tsc` where `k` is the number of sleeps made so far, and
the total number of sleeps is at most `ceil(timeout_tsc / sample_tsc)`,
whatever the readings of the counter are. -/
theorem consume_sleeps_bounded (tsc : Nat → Nat) (sleep_us sample_tsc timeout_tsc : Nat)
    (fuel : Nat) (st : ConsumeState) (hs : 0 < sample_tsc)
    (hnowrap : tsc 0 + timeout_tsc < U64)
    (hrun : consume fuel tsc sleep_us sample_tsc timeout_tsc = some st)
    (hwin : tsc 0 + (st.sleeps + 1) * sample_tsc < U64) :
    (∀ n, (consume_state n tsc sleep_us sample_tsc timeout_tsc).end_sample =
        tsc 0 + ((consume_state n tsc sleep_us sample_tsc timeout_tsc).sleeps + 1)
          * sample_tsc) ∧
      st.end_sample = tsc 0 + (st.sleeps + 1) * sample_tsc ∧
      st.sleeps ≤ (timeout_tsc + sample_tsc - 1) / sample_tsc := by
  have hend : consume_end tsc timeout_tsc = tsc 0 + timeout_tsc := by
    unfold consume_end
    exact Nat.mod_eq_of_lt hnowrap
  have hinit : (consume_init tsc sample_tsc).end_sample =
      tsc 0 + ((consume_init tsc sample_tsc).sleeps + 1) * sample_tsc := by
    have h1 : tsc 0 + sample_tsc ≤ tsc 0 + (st.sleeps + 1) * sample_tsc := by
      have : 1 * sample_tsc ≤ (st.sleeps + 1) * sample_tsc := Nat.mul_le_mul_right _ (by omega)
      omega
    simp only [consume_init, Nat.zero_add, Nat.one_mul]
    exact Nat.mod_eq_of_lt (by omega)
  have hall : ∀ n,
      (consume_state n tsc sleep_us sample_tsc timeout_tsc).end_sample =
          tsc 0 + ((consume_state n tsc sleep_us sample_tsc timeout_tsc).sleeps + 1)
            * sample_tsc ∧
        (consume_state n tsc sleep_us sample_tsc timeout_tsc).sleeps ≤
          (timeout_tsc + sample_tsc - 1) / sample_tsc := by
    intro n
    have hle := consume_state_sleeps_le tsc sleep_us sample_tsc timeout_tsc fuel st hrun n
    unfold consume_state at hle ⊢
    rw [hend] at hle ⊢
    exact consume_run_invariant tsc sleep_us sample_tsc timeout_tsc (tsc 0) st.sleeps hs hwin n
      (consume_init tsc sample_tsc) hinit
      (by simp only [consume_init]; intro h; omega)
      (by simp [consume_init]) hle
  have hst : st = consume_state fuel tsc sleep_us sample_tsc timeout_tsc := by
    unfold consume at hrun
    simp only at hrun
    split at hrun
    · exact absurd hrun (by simp)
    · simpa using hrun.symm
  refine ⟨fun n => (hall n).1, ?_, ?_⟩
  · rw [hst]; exact (hall fuel).1
  · rw [hst]; exact (hall fuel).2

/-- Witness of `consume_sleeps_bounded` for the readings `0, 10, 20, ...`
with `sample_tsc = 25` and `timeout_tsc = 100`: the run returns after ten
iterations with three sleeps. -/
theorem consume_sleeps_bounded_witness :
    (∀ n, (consume_state n (fun k => 10 * k) 5 25 100).end_sample =
        (fun k => 10 * k) 0 + ((consume_state n (fun k => 10 * k) 5 25 100).sleeps + 1) * 25) ∧
      (⟨100, 100, 11, 3, 15⟩ : ConsumeState).end_sample =
        (fun k => 10 * k) 0 + ((⟨100, 100, 11, 3, 15⟩ : ConsumeState).sleeps + 1) * 25 ∧
      (⟨100, 100, 11, 3, 15⟩ : ConsumeState).sleeps ≤ (100 + 25 - 1) / 25 :=
  consume_sleeps_bounded (fun k => 10 * k) 5 25 100 10 ⟨100, 100, 11, 3, 15⟩ (by decide)
    (by decide) (by decide) (by decide)

/-! ## Reading `/proc/stat`: the loop bound -/

theorem skip_space_length (inp : List Char) : (skip_space inp).length ≤ inp.length := by
  induction inp with
  | nil => simp [skip_space]
  | cons c cs ih =>
    simp only [skip_space]
    split
    · exact Nat.le_succ_of_le ih
    · exact le_rfl

theorem scan_int_length (inp : List Char) (v : Int) (rest : List Char)
    (h : scan_int inp = ScanInt.value v rest) : rest.length ≤ inp.length := by
  cases inp with
  | nil => simp [scan_int] at h
  | cons c cs =>
    have hb : (if c = '-' ∨ c = '+' then cs else c :: cs).length ≤ (c :: cs).length := by
      split <;> simp
    have hd : ∀ l : List Char, (l.dropWhile Char.isDigit).length ≤ l.length := by
      intro l
      induction l with
      | nil => simp
      | cons x xs ih =>
        simp only [List.dropWhile_cons]
        split
        · exact Nat.le_succ_of_le ih
        · exact le_rfl
    simp only [scan_int] at h
    generalize (if c = '-' ∨ c = '+' then cs else c :: cs) = body at h hb
    by_cases hds : body.takeWhile Char.isDigit = []
    · rw [if_pos hds] at h
      exact absurd h (by simp)
    · rw [if_neg hds] at h
      simp only [ScanInt.value.injEq] at h
      rw [← h.2]
      exact le_trans (hd _) hb

theorem scan_int_failure_length (inp rest : List Char)
    (h : scan_int inp = ScanInt.matching_failure rest) : rest.length ≤ inp.length := by
  cases inp with
  | nil => simp [scan_int] at h
  | cons c cs =>
    have hb : (if c = '-' ∨ c = '+' then cs else c :: cs).length ≤ (c :: cs).length := by
      split <;> simp
    simp only [scan_int] at h
    generalize (if c = '-' ∨ c = '+' then cs else c :: cs) = body at h hb
    by_cases hds : body.takeWhile Char.isDigit = []
    · rw [if_pos hds] at h
      simp only [ScanInt.matching_failure.injEq] at h
      rw [← h]
      exact hb
    · rw [if_neg hds] at h
      exact absurd h (by simp)

theorem fscanf_go_length (ds : List Directive) :
    ∀ (inp : List Char) (assigned : Nat) (stored : Option Nat),
      (fscanf_go ds inp assigned stored).rest.length ≤ inp.length := by
  induction ds with
  | nil => intro inp a s; simp [fscanf_go]
  | cons d ds ih =>
    intro inp a s
    cases d with
    | lit c =>
      cases inp with
      | nil => simp [fscanf_go]
      | cons x xs =>
        simp only [fscanf_go]
        split
        · exact Nat.le_succ_of_le (ih xs a s)
        · exact le_rfl
    | space =>
      simp only [fscanf_go]
      exact le_trans (ih _ a s) (skip_space_length inp)
    | skip_d =>
      simp only [fscanf_go]
      split
      · simp
      · rename_i rest hv
        exact le_trans (scan_int_failure_length _ rest hv) (skip_space_length inp)
      · rename_i v rest hv
        exact le_trans (ih _ a s)
          (le_trans (scan_int_length _ v rest hv) (skip_space_length inp))
    | conv_u =>
      simp only [fscanf_go]
      split
      · simp
      · rename_i rest hv
        exact le_trans (scan_int_failure_length _ rest hv) (skip_space_length inp)
      · rename_i v rest hv
        exact le_trans (ih _ _ _)
          (le_trans (scan_int_length _ v rest hv) (skip_space_length inp))

/-- An iteration of the loop of `get_online_cpus` that does not leave the
loop consumes at least the character `c` of `cpu`. -/
theorem fscanf_cpu_line_consumes (inp : List Char)
    (h : (fscanf inp "cpu%u %*d %*d %*d %*d %*d %*d %*d %*d %*d %*d\n").ret = 1) :
    (fscanf inp "cpu%u %*d %*d %*d %*d %*d %*d %*d %*d %*d %*d\n").rest.length <
      inp.length := by
  have hfmt : ∃ ds, parse_format "cpu%u %*d %*d %*d %*d %*d %*d %*d %*d %*d %*d\n".toList =
      Directive.lit 'c' :: ds := ⟨_, rfl⟩
  obtain ⟨ds, hds⟩ := hfmt
  unfold fscanf at h ⊢
  rw [hds] at h ⊢
  cases inp with
  | nil => simp [fscanf_go, eof_or] at h
  | cons x xs =>
    simp only [fscanf_go] at h ⊢
    split
    · exact Nat.lt_succ_of_le (fscanf_go_length ds xs 0 none)
    · rename_i hx
      simp [hx] at h

/-- The result of the loop of `get_online_cpus` does not depend on the bound
on the number of iterations once it exceeds the length of the input. -/
theorem count_cpus_fuel (f1 : Nat) :
    ∀ (f2 : Nat) (inp : List Char) (cpu_num : Nat), inp.length < f1 → inp.length < f2 →
      count_cpus f1 inp cpu_num = count_cpus f2 inp cpu_num := by
  induction f1 with
  | zero => intro f2 inp c h1; exact absurd h1 (Nat.not_lt_zero _)
  | succ f1 ih =>
    intro f2 inp c h1 h2
    cases f2 with
    | zero => exact absurd h2 (Nat.not_lt_zero _)
    | succ f2 =>
      simp only [count_cpus]
      split
      · rfl
      · rename_i hret
        have hret' : (fscanf inp "cpu%u %*d %*d %*d %*d %*d %*d %*d %*d %*d %*d\n").ret = 1 := by
          simpa using hret
        have hlt := fscanf_cpu_line_consumes inp hret'
        exact ih f2 _ _ (by omega) (by omega)

/-! ## Reading `/proc/stat`: well-formed contents -/

theorem isspace_of_isDigit (c : Char) (h : c.isDigit = true) : isspace c = false := by
  by_contra hs
  have hs' : isspace c = true := by simpa using hs
  simp only [isspace, Bool.or_eq_true, decide_eq_true_eq] at hs'
  rcases hs' with ((((rfl | rfl) | rfl) | rfl) | rfl) | rfl <;> exact absurd h (by decide)

theorem skip_space_number (f r : List Char) (hf : is_number f) :
    skip_space (f ++ r) = f ++ r := by
  obtain ⟨hne, hd⟩ := hf
  cases f with
  | nil => exact absurd rfl hne
  | cons c cs =>
    have hc : isspace c = false := isspace_of_isDigit c (hd c (List.mem_cons_self _ _))
    simp [skip_space, hc]

theorem takeWhile_digits (f r : List Char) (hf : ∀ c, c ∈ f → c.isDigit = true)
    (hr : ∀ c, r.head? = some c → c.isDigit = false) :
    (f ++ r).takeWhile Char.isDigit = f ∧ (f ++ r).dropWhile Char.isDigit = r := by
  induction f with
  | nil =>
    cases r with
    | nil => simp
    | cons x xs =>
      have hx : x.isDigit = false := hr x rfl
      simp [List.takeWhile_cons, List.dropWhile_cons, hx]
  | cons c cs ih =>
    have hc : c.isDigit = true := hf c (List.mem_cons_self _ _)
    have := ih (fun x hx => hf x (List.mem_cons_of_mem _ hx))
    simp [List.takeWhile_cons, List.dropWhile_cons, hc, this.1, this.2]

theorem scan_int_number (f r : List Char) (hf : is_number f)
    (hr : ∀ c, r.head? = some c → c.isDigit = false) :
    scan_int (f ++ r) = ScanInt.value (digits_value 0 f) r := by
  obtain ⟨hne, hd⟩ := hf
  cases f with
  | nil => exact absurd rfl hne
  | cons c cs =>
    have hc : c.isDigit = true := hd c (List.mem_cons_self _ _)
    have hm : c ≠ '-' := by rintro rfl; exact absurd hc (by decide)
    have hp : c ≠ '+' := by rintro rfl; exact absurd hc (by decide)
    have htd := takeWhile_digits (c :: cs) r hd hr
    simp only [List.cons_append] at htd
    simp only [scan_int, List.cons_append, hm, hp, or_self, if_false, htd.1, htd.2]
    simp

/-- The fields of a line, followed by a newline, start with a character that
is not a digit. -/
theorem fields_stop (fs : List (List Char)) (r : List Char) :
    ∀ c, (render_fields fs ++ '\n' :: r).head? = some c → c.isDigit = false := by
  intro c hc
  cases fs with
  | nil =>
    simp only [render_fields, List.nil_append, List.head?_cons, Option.some.injEq] at hc
    rw [← hc]; decide
  | cons f fs =>
    simp only [render_fields, List.cons_append, List.head?_cons, Option.some.injEq] at hc
    rw [← hc]; decide

theorem fscanf_go_lit (c : Char) (ds : List Directive) (inp : List Char) (assigned : Nat)
    (stored : Option Nat) :
    fscanf_go (Directive.lit c :: ds) (c :: inp) assigned stored =
      fscanf_go ds inp assigned stored := by
  simp [fscanf_go]

theorem fscanf_go_space_blank (ds : List Directive) (inp : List Char) (assigned : Nat)
    (stored : Option Nat) :
    fscanf_go (Directive.space :: ds) (' ' :: inp) assigned stored =
      fscanf_go (Directive.space :: ds) inp assigned stored := by
  have : isspace ' ' = true := by decide
  simp [fscanf_go, skip_space, this]

theorem fscanf_go_space_number (ds : List Directive) (f r : List Char) (assigned : Nat)
    (stored : Option Nat) (hf : is_number f) :
    fscanf_go (Directive.space :: ds) (f ++ r) assigned stored =
      fscanf_go ds (f ++ r) assigned stored := by
  simp only [fscanf_go, skip_space_number f r hf]

theorem fscanf_go_skip_d (ds : List Directive) (f r : List Char) (assigned : Nat)
    (stored : Option Nat) (hf : is_number f)
    (hr : ∀ c, r.head? = some c → c.isDigit = false) :
    fscanf_go (Directive.skip_d :: ds) (f ++ r) assigned stored =
      fscanf_go ds r assigned stored := by
  simp only [fscanf_go, skip_space_number f r hf, scan_int_number f r hf hr]

theorem fscanf_go_conv_u (ds : List Directive) (f r : List Char) (assigned : Nat)
    (stored : Option Nat) (hf : is_number f)
    (hr : ∀ c, r.head? = some c → c.isDigit = false) :
    fscanf_go (Directive.conv_u :: ds) (f ++ r) assigned stored =
      fscanf_go ds r (assigned + 1) (some (to_u32 (digits_value 0 f))) := by
  simp only [fscanf_go, skip_space_number f r hf, scan_int_number f r hf hr]

theorem fscanf_go_newline (rest : List Char) (assigned : Nat) (stored : Option Nat)
    (hrest : skip_space rest = rest) :
    fscanf_go [Directive.space] ('\n' :: rest) assigned stored = ⟨assigned, stored, rest⟩ := by
  have : isspace '\n' = true := by decide
  simp [fscanf_go, skip_space, this, hrest]

/-- The directives ` %*d` consume the fields of a line. -/
theorem fscanf_go_fields (fs : List (List Char)) :
    ∀ (ds : List Directive) (r : List Char) (assigned : Nat) (stored : Option Nat),
      (∀ f, f ∈ fs → is_number f) →
      fscanf_go (field_directives fs.length ds)
          (render_fields fs ++ '\n' :: r) assigned stored =
        fscanf_go ds ('\n' :: r) assigned stored := by
  induction fs with
  | nil => intro ds r a s _; rfl
  | cons f fs ih =>
    intro ds r a s hfs
    have hf : is_number f := hfs f (List.mem_cons_self _ _)
    have hshape : render_fields (f :: fs) ++ '\n' :: r =
        ' ' :: (f ++ (render_fields fs ++ '\n' :: r)) := by
      simp [render_fields]
    have hdir : field_directives (f :: fs).length ds =
        Directive.space :: Directive.skip_d :: field_directives fs.length ds := rfl
    rw [hshape, hdir, fscanf_go_space_blank, fscanf_go_space_number _ _ _ _ _ hf,
      fscanf_go_skip_d _ _ _ _ _ hf (fields_stop fs r)]
    exact ih ds r a s (fun g hg => hfs g (List.mem_cons_of_mem _ hg))

theorem parse_format_cpu_total :
    parse_format "cpu %*d %*d %*d %*d %*d %*d %*d %*d %*d %*d\n".toList =
      Directive.lit 'c' :: Directive.lit 'p' :: Directive.lit 'u' ::
        field_directives 10 [Directive.space] := by
  rfl

theorem parse_format_cpu_line :
    parse_format "cpu%u %*d %*d %*d %*d %*d %*d %*d %*d %*d %*d\n".toList =
      Directive.lit 'c' :: Directive.lit 'p' :: Directive.lit 'u' :: Directive.conv_u ::
        field_directives 10 [Directive.space] := by
  rfl

/-- The first `fscanf` of `get_online_cpus` on a well-formed aggregate line
returns 0 and leaves the input that follows the line. -/
theorem fscanf_cpu_total (agg : List (List Char)) (rest : List Char)
    (hlen : agg.length = 10) (hagg : ∀ f, f ∈ agg → is_number f)
    (hrest : skip_space rest = rest) :
    fscanf (stat_line ['c', 'p', 'u', ' '] agg rest)
        "cpu %*d %*d %*d %*d %*d %*d %*d %*d %*d %*d\n" = ⟨0, none, rest⟩ := by
  unfold fscanf
  rw [parse_format_cpu_total, ← hlen]
  cases agg with
  | nil => simp at hlen
  | cons f fs =>
    have hshape : stat_line ['c', 'p', 'u', ' '] (f :: fs) rest =
        'c' :: 'p' :: 'u' :: ' ' :: (render_fields (f :: fs) ++ '\n' :: rest) := rfl
    have hdir : field_directives (f :: fs).length [Directive.space] =
        Directive.space :: Directive.skip_d :: field_directives fs.length [Directive.space] :=
      rfl
    rw [hshape, fscanf_go_lit, fscanf_go_lit, fscanf_go_lit, hdir, fscanf_go_space_blank,
      ← hdir, fscanf_go_fields (f :: fs) _ _ _ _ hagg, fscanf_go_newline _ _ _ hrest]
    rfl

/-- A `fscanf` of the loop of `get_online_cpus` on a well-formed per-CPU
line returns 1 and leaves the input that follows the line. -/
theorem fscanf_cpu_line (id : List Char) (fields : List (List Char)) (rest : List Char)
    (hid : is_number id) (hlen : fields.length = 10) (hfields : ∀ f, f ∈ fields → is_number f)
    (hrest : skip_space rest = rest) :
    fscanf (stat_line ('c' :: 'p' :: 'u' :: id) fields rest)
        "cpu%u %*d %*d %*d %*d %*d %*d %*d %*d %*d %*d\n" =
      ⟨1, some (to_u32 (digits_value 0 id)), rest⟩ := by
  unfold fscanf
  rw [parse_format_cpu_line, ← hlen]
  have hshape : stat_line ('c' :: 'p' :: 'u' :: id) fields rest =
      'c' :: 'p' :: 'u' :: (id ++ (render_fields fields ++ '\n' :: rest)) := rfl
  rw [hshape, fscanf_go_lit, fscanf_go_lit, fscanf_go_lit,
    fscanf_go_conv_u _ _ _ _ _ hid (fields_stop fields rest),
    fscanf_go_fields fields _ _ _ _ hfields, fscanf_go_newline _ _ _ hrest]
  rfl

theorem skip_space_cpu_lines (cpus : List (List Char × List (List Char))) (tail : List Char)
    (htail : tail = [] ∨ ∃ c t, tail = c :: t ∧ c ≠ 'c' ∧ isspace c = false) :
    skip_space (cpu_lines cpus tail) = cpu_lines cpus tail := by
  cases cpus with
  | nil =>
    rcases htail with rfl | ⟨c, t, rfl, _, hc⟩
    · rfl
    · simp [cpu_lines, skip_space, hc]
  | cons c l =>
    have h : isspace 'c' = false := by decide
    have hshape : cpu_lines (c :: l) tail =
        'c' :: 'p' :: 'u' :: (c.1 ++ (render_fields c.2 ++ '\n' :: cpu_lines l tail)) := rfl
    rw [hshape]
    simp [skip_space, h]

/-- On the per-CPU lines of a well-formed `/proc/stat` the loop of
`get_online_cpus` adds the number of lines to `cpu_num`. -/
theorem count_cpus_cpu_lines (cpus : List (List Char × List (List Char))) (tail : List Char)
    (hcpus : ∀ c, c ∈ cpus → is_number c.1 ∧ c.2.length = 10 ∧ ∀ f, f ∈ c.2 → is_number f)
    (htail : tail = [] ∨ ∃ c t, tail = c :: t ∧ c ≠ 'c' ∧ isspace c = false) :
    ∀ (fuel cpu_num : Nat), (cpu_lines cpus tail).length < fuel → cpu_num < U64 →
      count_cpus fuel (cpu_lines cpus tail) cpu_num = (cpu_num + cpus.length) % U64 := by
  induction cpus with
  | nil =>
    intro fuel cpu_num hfuel hlt
    cases fuel with
    | zero => exact absurd hfuel (Nat.not_lt_zero _)
    | succ fuel =>
      have hret : (fscanf tail "cpu%u %*d %*d %*d %*d %*d %*d %*d %*d %*d %*d\n").ret ≠ 1 := by
        unfold fscanf
        rw [parse_format_cpu_line]
        rcases htail with rfl | ⟨c, t, rfl, hc, _⟩
        · simp [fscanf_go, eof_or]
        · simp [fscanf_go, hc]
      simp only [cpu_lines, count_cpus, hret, ne_eq, not_false_eq_true, if_true,
        List.length_nil, Nat.add_zero]
      exact (Nat.mod_eq_of_lt hlt).symm
  | cons c cpus ih =>
    intro fuel cpu_num hfuel hlt
    obtain ⟨hid, hlen, hfields⟩ := hcpus c (List.mem_cons_self _ _)
    have hrest : ∀ x, x ∈ cpus →
        is_number x.1 ∧ x.2.length = 10 ∧ ∀ f, f ∈ x.2 → is_number f :=
      fun x hx => hcpus x (List.mem_cons_of_mem _ hx)
    have hsplit : cpu_lines (c :: cpus) tail =
        stat_line ('c' :: 'p' :: 'u' :: c.1) c.2 (cpu_lines cpus tail) := rfl
    cases fuel with
    | zero => exact absurd hfuel (Nat.not_lt_zero _)
    | succ fuel =>
      rw [hsplit] at hfuel ⊢
      have hscan := fscanf_cpu_line c.1 c.2 (cpu_lines cpus tail) hid hlen hfields
        (skip_space_cpu_lines cpus tail htail)
      have hfuel' : (cpu_lines cpus tail).length < fuel := by
        simp only [List.length_append, stat_line, List.length_cons] at hfuel
        omega
      simp only [count_cpus, hscan, ne_eq, not_true_eq_false, if_false]
      rw [ih hrest fuel _ hfuel' (Nat.mod_lt _ (by norm_num [U64]))]
      simp only [List.length_cons]
      rw [U64_eq]
      omega

/-- On every well-formed `/proc/stat` (the aggregate line, `n` per-CPU lines
of ten fields, and a rest that is empty or starts with a visible character
other than `c`), `get_online_cpus` returns the initial content of its
uninitialised local `cpu_num` plus `n`, modulo `2^64`. -/
theorem get_online_cpus_well_formed (P : Platform) (agg : List (List Char))
    (cpus : List (List Char × List (List Char))) (tail : List Char)
    (hstat : P.proc_stat = some (proc_stat_content agg cpus tail))
    (hlen : agg.length = 10) (hagg : ∀ f, f ∈ agg → is_number f)
    (hcpus : ∀ c, c ∈ cpus → is_number c.1 ∧ c.2.length = 10 ∧ ∀ f, f ∈ c.2 → is_number f)
    (htail : tail = [] ∨ ∃ c t, tail = c :: t ∧ c ≠ 'c' ∧ isspace c = false) :
    get_online_cpus P = Ret.returned ((P.cpu_num0 + cpus.length) % U64) := by
  have h1 := fscanf_cpu_total agg (cpu_lines cpus tail) hlen hagg
    (skip_space_cpu_lines cpus tail htail)
  have h2 := count_cpus_cpu_lines cpus tail hcpus htail
    ((cpu_lines cpus tail).length + 1) (P.cpu_num0 % U64) (Nat.lt_succ_self _)
    (Nat.mod_lt _ (by norm_num [U64]))
  unfold get_online_cpus
  simp only [hstat, proc_stat_content, h1, ne_eq, not_true_eq_false, if_false, h2]
  rw [U64_eq]
  congr 1
  omega

/-- The file `proc_stat_two_cpus` is well formed: an instance of
`get_online_cpus_well_formed` with two per-CPU lines and the initial content
5 of `cpu_num`. -/
theorem get_online_cpus_well_formed_example :
    get_online_cpus (platform_ok proc_stat_two_cpus 5) = Ret.returned ((5 + 2) % U64) :=
  get_online_cpus_well_formed (platform_ok proc_stat_two_cpus 5)
    ["2255".toList, "34".toList, "2290".toList, "22625563".toList, "6290".toList,
      "127".toList, "456".toList, "0".toList, "0".toList, "0".toList]
    [("0".toList, ["1132".toList, "34".toList, "1441".toList, "11311718".toList,
        "3675".toList, "127".toList, "438".toList, "0".toList, "0".toList, "0".toList]),
      ("1".toList, ["1123".toList, "0".toList, "849".toList, "11313845".toList,
        "2614".toList, "0".toList, "18".toList, "0".toList, "0".toList, "0".toList])]
    "intr 114930548 113199788 3 0 5 263 0 4\nctxt 1990473\n".toList
    (by set_option maxRecDepth 100000 in decide) (by decide)
    (by unfold is_number; set_option maxRecDepth 100000 in decide)
    (by unfold is_number; set_option maxRecDepth 100000 in decide)
    (Or.inr ⟨'i', "ntr 114930548 113199788 3 0 5 263 0 4\nctxt 1990473\n".toList,
      by decide, by decide, by decide⟩)

/-! ## Orchestration: lemmas -/

theorem cmdline_thread_count (opts : List (Char × Int)) :
    ∀ c0 cfg : Config, (∀ o, o ∈ opts → o.1 ≠ 'c') → cmdline opts c0 = some cfg →
      cfg.thread_count = c0.thread_count := by
  induction opts with
  | nil =>
    intro c0 cfg _ h
    simp only [cmdline, Option.some.injEq] at h
    rw [h]
  | cons o rest ih =>
    intro c0 cfg hno h
    obtain ⟨opt, v⟩ := o
    have hc : opt ≠ 'c' := hno (opt, v) (List.mem_cons_self _ _)
    have hrest : ∀ o, o ∈ rest → o.1 ≠ 'c' := fun o ho => hno o (List.mem_cons_of_mem _ ho)
    simp only [cmdline, hc, if_false] at h
    split at h
    · have h' := ih _ _ hrest h
      exact h'
    · split at h
      · have h' := ih _ _ hrest h
        exact h'
      · split at h
        · have h' := ih _ _ hrest h
          exact h'
        · split at h
          · have h' := ih _ _ hrest h
            exact h'
          · exact absurd h (by simp)

theorem spawn_loop_of_affinity_ok (P : Platform) (cfg : Config) (l : List Nat) :
    ∀ tr : List Event, (∀ i, i ∈ l → P.setaffinity i = 0) →
      spawn_loop P cfg l tr = Ret.returned (tr ++ l.flatMap (fun i =>
        [Event.starting i cfg.work_load cfg.time_out, Event.pthread_create i (P.create i)])) := by
  induction l with
  | nil => intro tr _; simp [spawn_loop]
  | cons i rest ih =>
    intro tr h
    have hi : P.setaffinity i = 0 := h i (List.mem_cons_self _ _)
    simp only [spawn_loop, hi, ne_eq, not_true_eq_false, if_false]
    rw [ih _ (fun j hj => h j (List.mem_cons_of_mem _ hj))]
    simp

theorem join_loop_of_join_ok (P : Platform) (l : List Nat) :
    ∀ tr : List Event, (∀ i, i ∈ l → P.join i = 0) →
      join_loop P l tr = Ret.returned (tr ++ l.map (fun i => Event.pthread_join i 0)) := by
  induction l with
  | nil => intro tr _; simp [join_loop]
  | cons i rest ih =>
    intro tr h
    have hi : P.join i = 0 := h i (List.mem_cons_self _ _)
    simp only [join_loop, hi, ne_eq, not_true_eq_false, if_false]
    rw [ih _ (fun j hj => h j (List.mem_cons_of_mem _ hj))]
    simp

theorem spawn_loop_accesses (P : Platform) (cfg : Config) (l : List Nat) :
    ∀ (tr : List Event) (i : Nat),
      i ∈ cpu_info_accesses (trace_of (spawn_loop P cfg l tr)) →
      i ∈ cpu_info_accesses tr ∨ i ∈ l := by
  induction l with
  | nil => intro tr i h; left; simpa [spawn_loop, trace_of] using h
  | cons j rest ih =>
    intro tr i h
    by_cases hj : P.setaffinity j = 0
    · simp only [spawn_loop, hj, ne_eq, not_true_eq_false, if_false] at h
      rcases ih _ i h with h1 | h1
      · simp only [cpu_info_accesses, List.filterMap_append, List.mem_append] at h1
        rcases h1 with h1 | h1
        · left; exact h1
        · right
          simp [cpu_info_index] at h1
          simp [h1]
      · right; exact List.mem_cons_of_mem _ h1
    · left
      simpa [spawn_loop, hj, trace_of, err_exit, cpu_info_accesses, cpu_info_index] using h

theorem join_loop_accesses (P : Platform) (l : List Nat) :
    ∀ (tr : List Event) (i : Nat),
      i ∈ cpu_info_accesses (trace_of (join_loop P l tr)) →
      i ∈ cpu_info_accesses tr ∨ i ∈ l := by
  induction l with
  | nil => intro tr i h; left; simpa [join_loop, trace_of] using h
  | cons j rest ih =>
    intro tr i h
    by_cases hj : P.join j = 0
    · simp only [join_loop, hj, ne_eq, not_true_eq_false, if_false] at h
      rcases ih _ i h with h1 | h1
      · simp only [cpu_info_accesses, List.filterMap_append, List.mem_append] at h1
        rcases h1 with h1 | h1
        · left; exact h1
        · right
          simp [cpu_info_index] at h1
          simp [h1]
      · right; exact List.mem_cons_of_mem _ h1
    · simp only [join_loop, hj, ne_eq, not_false_eq_true, if_true, trace_of, err_exit,
        cpu_info_accesses, List.filterMap_append, List.mem_append] at h
      rcases h with (h | h) | h
      · left; exact h
      · right
        simp [cpu_info_index] at h
        simp [h]
      · simp [cpu_info_index] at h

theorem spawn_loop_of_all_ok (P : Platform) (cfg : Config) (l : List Nat) :
    ∀ tr : List Event, (∀ i, i ∈ l → P.setaffinity i = 0) → (∀ i, i ∈ l → P.create i = 0) →
      spawn_loop P cfg l tr = Ret.returned (tr ++ l.flatMap (fun i =>
        [Event.starting i cfg.work_load cfg.time_out, Event.pthread_create i 0])) := by
  induction l with
  | nil => intro tr _ _; simp [spawn_loop]
  | cons i rest ih =>
    intro tr h hc
    have hi : P.setaffinity i = 0 := h i (List.mem_cons_self _ _)
    have hci : P.create i = 0 := hc i (List.mem_cons_self _ _)
    simp only [spawn_loop, hi, hci, ne_eq, not_true_eq_false, if_false]
    rw [ih _ (fun j hj => h j (List.mem_cons_of_mem _ hj))
      (fun j hj => hc j (List.mem_cons_of_mem _ hj))]
    simp

theorem started_cpus_full_run_trace (cfg : Config) (l : List Nat) :
    started_cpus (full_run_trace cfg l) = l := by
  have h1 : ∀ l : List Nat, started_cpus (l.flatMap (fun i =>
      [Event.starting i cfg.work_load cfg.time_out, Event.pthread_create i 0])) = l := by
    intro l
    induction l with
    | nil => rfl
    | cons i rest ih =>
      simp only [started_cpus, List.flatMap_cons, List.filterMap_append] at ih ⊢
      rw [ih]
      rfl
  have h2 : ∀ l : List Nat, started_cpus (l.map (fun i => Event.pthread_join i 0)) = [] := by
    intro l
    induction l with
    | nil => rfl
    | cons i rest ih =>
      simp only [started_cpus, List.map_cons, List.filterMap_cons] at ih ⊢
      exact ih
  have h3 : started_cpus [Event.done] = [] := rfl
  unfold full_run_trace
  have happ : ∀ a b : List Event, started_cpus (a ++ b) = started_cpus a ++ started_cpus b :=
    fun a b => List.filterMap_append _ _ _
  rw [happ, happ, h1, h2, h3]
  simp

theorem spawned_cpus_full_run_trace (cfg : Config) (l : List Nat) :
    spawned_cpus (full_run_trace cfg l) = l := by
  have h1 : ∀ l : List Nat, spawned_cpus (l.flatMap (fun i =>
      [Event.starting i cfg.work_load cfg.time_out, Event.pthread_create i 0])) = l := by
    intro l
    induction l with
    | nil => rfl
    | cons i rest ih =>
      simp only [spawned_cpus, List.flatMap_cons, List.filterMap_append] at ih ⊢
      rw [ih]
      rfl
  have h2 : ∀ l : List Nat, spawned_cpus (l.map (fun i => Event.pthread_join i 0)) = [] := by
    intro l
    induction l with
    | nil => rfl
    | cons i rest ih =>
      simp only [spawned_cpus, List.map_cons, List.filterMap_cons] at ih ⊢
      exact ih
  have h3 : spawned_cpus [Event.done] = [] := rfl
  unfold full_run_trace
  have happ : ∀ a b : List Event, spawned_cpus (a ++ b) = spawned_cpus a ++ spawned_cpus b :=
    fun a b => List.filterMap_append _ _ _
  rw [happ, happ, h1, h2, h3]
  simp

theorem spawn_loop_affinity_failure (P : Platform) (cfg : Config) (l : List Nat) :
    ∀ tr : List Event, (∃ i, i ∈ l ∧ P.setaffinity i ≠ 0) → Event.done ∉ tr →
      ∃ tr', spawn_loop P cfg l tr =
          Ret.exited (err_exit tr' "pthread_attr_setaffinity_np failed") ∧
        Event.done ∉ tr' := by
  induction l with
  | nil => intro tr h; simp at h
  | cons j rest ih =>
    intro tr h hd
    by_cases hj : P.setaffinity j = 0
    · obtain ⟨i, hi, hne⟩ := h
      have hrest : ∃ i, i ∈ rest ∧ P.setaffinity i ≠ 0 := by
        rcases List.mem_cons.mp hi with rfl | hi'
        · exact absurd hj hne
        · exact ⟨i, hi', hne⟩
      simp only [spawn_loop, hj, ne_eq, not_true_eq_false, if_false]
      exact ih _ hrest (by simp [hd])
    · exact ⟨tr, by simp [spawn_loop, hj], hd⟩

/-- The affinity half of claim C5: if `pthread_attr_setaffinity_np` fails for
a cpu of the range, `start_worker_threads` ends the process with the
diagnostic and status 1, and no "Done." line has been printed. -/
theorem spawn_affinity_failure_fatal (P : Platform) (cfg : Config)
    (h : ∃ i, cfg.start_cpu ≤ i ∧ i < (cfg.start_cpu + cfg.thread_count) % U64 ∧
      P.setaffinity i ≠ 0) :
    ∃ tr', start_worker_threads P cfg =
        Ret.exited ⟨tr' ++ [Event.perror "pthread_attr_setaffinity_np failed"], 1⟩ ∧
      Event.done ∉ tr' := by
  obtain ⟨i, h1, h2, h3⟩ := h
  have hmem : i ∈ List.range' cfg.start_cpu
      ((cfg.start_cpu + cfg.thread_count) % U64 - cfg.start_cpu) := by
    rw [List.mem_range'_1]
    omega
  obtain ⟨tr', htr, hd⟩ := spawn_loop_affinity_failure P cfg _ [] ⟨i, hmem, h3⟩ (by simp)
  refine ⟨tr', ?_, hd⟩
  unfold start_worker_threads
  simp only [htr, err_exit]

/-! ## Orchestration: theorems -/

/-- Claim C4: whenever `cmdline` returns, `cpus_init` succeeds and
`verify_param` rejects the parameters, `main` prints the usage line and
nothing else, and the process exits with status 1: no "Starting workload"
line, no `pthread_create`, no "Done." line. This is the case in particular
when `thread_count = 0`, when no `-c` option is given, and when
`start_cpu = online_cpus`. -/
theorem main_rejects_invalid (opts : List (Char × Int)) (P : Platform) (cfg : Config)
    (online_cpus : Nat) (hcmd : cmdline opts Config.initial = some cfg)
    (hinit : cpus_init P = Ret.returned online_cpus) :
    (verify_param cfg.start_cpu cfg.thread_count online_cpus = false →
        main opts P = ⟨[Event.usage], 1⟩) ∧
      (cfg.thread_count = 0 → main opts P = ⟨[Event.usage], 1⟩) ∧
      ((∀ o, o ∈ opts → o.1 ≠ 'c') → main opts P = ⟨[Event.usage], 1⟩) ∧
      (cfg.start_cpu = online_cpus → main opts P = ⟨[Event.usage], 1⟩) := by
  have key : verify_param cfg.start_cpu cfg.thread_count online_cpus = false →
      main opts P = ⟨[Event.usage], 1⟩ := by
    intro hrej
    simp [main, hcmd, hinit, hrej, help]
  refine ⟨key, ?_, ?_, ?_⟩
  · intro h0
    apply key
    simp [verify_param, h0]
  · intro hno
    apply key
    have h0 : cfg.thread_count = 0 := cmdline_thread_count opts _ _ hno hcmd
    simp [verify_param, h0]
  · intro hs
    apply key
    simp [verify_param, hs]

/-- Witness of `main_rejects_invalid`: the command line `-s 1` (no `-c`) on
a machine with two cpus. -/
theorem main_rejects_invalid_witness :
    (verify_param 1 0 2 = false →
        main [('s', 1)] (platform_ok proc_stat_two_cpus 0) = ⟨[Event.usage], 1⟩) ∧
      ((0 : Nat) = 0 → main [('s', 1)] (platform_ok proc_stat_two_cpus 0) = ⟨[Event.usage], 1⟩) ∧
      ((∀ o, o ∈ [('s', (1 : Int))] → o.1 ≠ 'c') →
        main [('s', 1)] (platform_ok proc_stat_two_cpus 0) = ⟨[Event.usage], 1⟩) ∧
      ((1 : Nat) = 2 → main [('s', 1)] (platform_ok proc_stat_two_cpus 0) = ⟨[Event.usage], 1⟩) :=
  main_rejects_invalid [('s', 1)] (platform_ok proc_stat_two_cpus 0)
    { sample_ms := 10, time_out := 10, work_load := 100, thread_count := 0, start_cpu := 1 } 2
    (by decide) (by set_option maxRecDepth 100000 in decide)

/-- Claim C5 fails on the code: the return value of `pthread_create` is not
examined. With `-s 0 -c 2` on two cpus and `pthread_create` failing for cpu 0,
`start_worker_threads` prints no diagnostic for it and goes on to start the
worker of cpu 1; if the join of the unwritten handle returns 0 the run
reaches "Done." and `main` returns 0, and if it returns `ESRCH` (3) the only
diagnostic is that of the join. -/
theorem pthread_create_failure_ignored :
    main [('s', 0), ('c', 2)] (platform_create_fails 0) =
        ⟨[Event.starting 0 100 10, Event.pthread_create 0 11,
          Event.starting 1 100 10, Event.pthread_create 1 0,
          Event.pthread_join 0 0, Event.pthread_join 1 0, Event.done], 0⟩ ∧
      main [('s', 0), ('c', 2)] (platform_create_fails 3) =
        ⟨[Event.starting 0 100 10, Event.pthread_create 0 11,
          Event.starting 1 100 10, Event.pthread_create 1 0,
          Event.pthread_join 0 3, Event.perror "pthread_join failed\n"], 1⟩ := by
  set_option maxRecDepth 100000 in
  decide

/-- Claim C6 fails on the code: the local `cpu_num` of `get_online_cpus` is
never initialised, so the result is the initial content of that variable plus
the number of per-CPU lines. With the content 5, a `/proc/stat` with two
per-CPU lines gives 7, and one without per-CPU lines gives 5, which
`cpus_init` accepts; only with the content 0 are the results 2 and the fatal
error. -/
theorem get_online_cpus_uninitialised :
    get_online_cpus (platform_ok proc_stat_two_cpus 5) = Ret.returned 7 ∧
      cpus_init (platform_ok proc_stat_no_cpu 5) = Ret.returned 5 ∧
      get_online_cpus (platform_ok proc_stat_two_cpus 0) = Ret.returned 2 ∧
      cpus_init (platform_ok proc_stat_no_cpu 0) =
        Ret.exited ⟨[Event.perror "Get cpu online number failed"], 1⟩ := by
  set_option maxRecDepth 100000 in
  decide

/-- Claim C7, as stated, fails: on a platform where `cpus_init` yields
`online_cpus = 2^63 + 1` and every call succeeds, the command line
`-s -9223372036854775808 -c -9223372036854775808` sets
`start_cpu = thread_count = 2^63`, which `verify_param` accepts; the
`unsigned long` sum `end` wraps to 0, so `start_worker_threads` only prints
"Done." and `main` returns 0 with no worker spawned and no "Starting
workload" line, where the claim promises `2^63` of each. -/
theorem start_worker_threads_wrapped_range :
    cpus_init (platform_ok proc_stat_two_cpus (2 ^ 63 - 1)) = Ret.returned (2 ^ 63 + 1) ∧
      cmdline [('s', -9223372036854775808), ('c', -9223372036854775808)] Config.initial =
        some { sample_ms := 10, time_out := 10, work_load := 100,
               thread_count := 2 ^ 63, start_cpu := 2 ^ 63 } ∧
      verify_param (2 ^ 63) (2 ^ 63) (2 ^ 63 + 1) = true ∧
      start_worker_threads (platform_ok proc_stat_two_cpus (2 ^ 63 - 1))
        { sample_ms := 10, time_out := 10, work_load := 100,
          thread_count := 2 ^ 63, start_cpu := 2 ^ 63 } = Ret.returned [Event.done] ∧
      main [('s', -9223372036854775808), ('c', -9223372036854775808)]
        (platform_ok proc_stat_two_cpus (2 ^ 63 - 1)) = ⟨[Event.done], 0⟩ ∧
      (spawned_cpus [Event.done]).length ≠ 2 ^ 63 ∧
      (started_cpus [Event.done]).length ≠ 2 ^ 63 := by
  set_option maxRecDepth 100000 in
  decide

/-- Claim C7, amended: for every parameter set that `verify_param` accepts
and for which `start_cpu + thread_count` is below `2^64`, if every affinity
setting, every thread creation and every join in the range succeeds,
`start_worker_threads` spawns exactly `thread_count` worker threads, one for
each `i` in `[start_cpu, start_cpu + thread_count)` in ascending order, prints
one "Starting workload on cpu i" line for each such `i` (`thread_count` in
all) and, after the joins, exactly one "Done." line as the last action, and
`main` returns 0. -/
theorem main_runs_workers (opts : List (Char × Int)) (P : Platform) (cfg : Config)
    (online_cpus : Nat) (hcmd : cmdline opts Config.initial = some cfg)
    (hinit : cpus_init P = Ret.returned online_cpus)
    (hok : verify_param cfg.start_cpu cfg.thread_count online_cpus = true)
    (hnowrap : cfg.start_cpu + cfg.thread_count < U64)
    (haff : ∀ i, cfg.start_cpu ≤ i → i < cfg.start_cpu + cfg.thread_count →
      P.setaffinity i = 0)
    (hcreate : ∀ i, cfg.start_cpu ≤ i → i < cfg.start_cpu + cfg.thread_count →
      P.create i = 0)
    (hjoin : ∀ i, cfg.start_cpu ≤ i → i < cfg.start_cpu + cfg.thread_count → P.join i = 0) :
    start_worker_threads P cfg =
        Ret.returned (full_run_trace cfg (List.range' cfg.start_cpu cfg.thread_count)) ∧
      main opts P =
        ⟨full_run_trace cfg (List.range' cfg.start_cpu cfg.thread_count), 0⟩ ∧
      spawned_cpus (full_run_trace cfg (List.range' cfg.start_cpu cfg.thread_count)) =
        List.range' cfg.start_cpu cfg.thread_count ∧
      started_cpus (full_run_trace cfg (List.range' cfg.start_cpu cfg.thread_count)) =
        List.range' cfg.start_cpu cfg.thread_count ∧
      (List.range' cfg.start_cpu cfg.thread_count).length = cfg.thread_count ∧
      (full_run_trace cfg (List.range' cfg.start_cpu cfg.thread_count)).count Event.done = 1 ∧
      (full_run_trace cfg (List.range' cfg.start_cpu cfg.thread_count)).getLast? =
        some Event.done := by
  have hlen : (cfg.start_cpu + cfg.thread_count) % U64 - cfg.start_cpu = cfg.thread_count := by
    rw [Nat.mod_eq_of_lt hnowrap]
    omega
  have hsw : start_worker_threads P cfg =
      Ret.returned (full_run_trace cfg (List.range' cfg.start_cpu cfg.thread_count)) := by
    unfold start_worker_threads
    simp only [hlen]
    rw [spawn_loop_of_all_ok P cfg _ []
      (fun i hi => by
        rw [List.mem_range'_1] at hi
        exact haff i hi.1 hi.2)
      (fun i hi => by
        rw [List.mem_range'_1] at hi
        exact hcreate i hi.1 hi.2)]
    simp only
    rw [join_loop_of_join_ok P _ _
      (fun i hi => by
        rw [List.mem_range'_1] at hi
        exact hjoin i hi.1 hi.2)]
    simp [full_run_trace]
  refine ⟨hsw, ?_, spawned_cpus_full_run_trace cfg _, started_cpus_full_run_trace cfg _,
    List.length_range' _ _ _, ?_, ?_⟩
  · simp [main, hcmd, hinit, hok, hsw]
  · have h1 : Event.done ∉ (List.range' cfg.start_cpu cfg.thread_count).flatMap (fun i =>
        [Event.starting i cfg.work_load cfg.time_out, Event.pthread_create i 0]) := by
      simp [List.mem_flatMap]
    have h2 : Event.done ∉ (List.range' cfg.start_cpu cfg.thread_count).map
        (fun i => Event.pthread_join i 0) := by
      simp
    simp only [full_run_trace, List.count_append]
    rw [List.count_eq_zero.mpr h1, List.count_eq_zero.mpr h2]
    rfl
  · simp [full_run_trace]

/-- Witness of `main_runs_workers`: `-s 0 -c 2 -t 1 -l 50` on two cpus. -/
theorem main_runs_workers_witness :
    main [('s', 0), ('c', 2), ('t', 1), ('l', 50)] (platform_ok proc_stat_two_cpus 0) =
        ⟨[Event.starting 0 50 1, Event.pthread_create 0 0,
          Event.starting 1 50 1, Event.pthread_create 1 0,
          Event.pthread_join 0 0, Event.pthread_join 1 0, Event.done], 0⟩ ∧
      spawned_cpus [Event.starting 0 50 1, Event.pthread_create 0 0,
          Event.starting 1 50 1, Event.pthread_create 1 0,
          Event.pthread_join 0 0, Event.pthread_join 1 0, Event.done] = [0, 1] :=
  ⟨(main_runs_workers [('s', 0), ('c', 2), ('t', 1), ('l', 50)]
    (platform_ok proc_stat_two_cpus 0)
    { sample_ms := 10, time_out := 1, work_load := 50, thread_count := 2, start_cpu := 0 } 2
    (by decide) (by set_option maxRecDepth 100000 in decide) (by decide) (by decide)
    (fun _ _ _ => rfl) (fun _ _ _ => rfl) (fun _ _ _ => rfl)).2.1, by decide⟩

/-- Claim C10, as stated, fails: with `online_cpus = 768614336404564651` the
size `sizeof(struct cpu_info) * online_cpus` wraps and `cpus_init` asks
`malloc` for 8 bytes; `verify_param` accepts `start_cpu = 0`,
`thread_count = 1`, and `start_worker_threads` accesses entry 0, whose 24
bytes do not fit in the table, although `0 < online_cpus`. -/
theorem cpu_info_table_smaller_than_online_cpus :
    cpus_init (platform_ok proc_stat_two_cpus 768614336404564649) =
        Ret.returned 768614336404564651 ∧
      (SIZEOF_CPU_INFO * 768614336404564651) % U64 = 8 ∧
      verify_param 0 1 768614336404564651 = true ∧
      cpu_info_accesses (trace_of
        (start_worker_threads (platform_ok proc_stat_two_cpus 768614336404564649)
          { sample_ms := 10, time_out := 10, work_load := 100,
            thread_count := 1, start_cpu := 0 })) = [0, 0] ∧
      ¬ SIZEOF_CPU_INFO * (0 + 1) ≤ (SIZEOF_CPU_INFO * 768614336404564651) % U64 := by
  set_option maxRecDepth 100000 in
  decide

/-- Claim C10, amended: for every parameter set that `verify_param` accepts,
every index at which `start_worker_threads` accesses the `cpu_info` table (in
the `pthread_create` calls of the first loop and the `pthread_join` calls of
the second, with `end` computed in `unsigned long` arithmetic) is below
`online_cpus`, whatever the platform calls return; and whenever the size
`sizeof(struct cpu_info) * online_cpus` that `cpus_init` passes to `malloc`
is below `2^64`, the entry lies within the table allocated. -/
theorem cpu_info_accesses_in_bounds (P : Platform) (cfg : Config) (online_cpus : Nat)
    (hok : verify_param cfg.start_cpu cfg.thread_count online_cpus = true) :
    ∀ i, i ∈ cpu_info_accesses (trace_of (start_worker_threads P cfg)) →
      i < online_cpus ∧
        (SIZEOF_CPU_INFO * online_cpus < U64 →
          SIZEOF_CPU_INFO * (i + 1) ≤ (SIZEOF_CPU_INFO * online_cpus) % U64) := by
  suffices hlt : ∀ i, i ∈ cpu_info_accesses (trace_of (start_worker_threads P cfg)) →
      i < online_cpus by
    intro i hi
    refine ⟨hlt i hi, fun hsz => ?_⟩
    rw [Nat.mod_eq_of_lt hsz]
    exact Nat.mul_le_mul_left _ (hlt i hi)
  intro i hi
  have hend : (cfg.start_cpu + cfg.thread_count) % U64 ≤ online_cpus := by
    simp only [verify_param, Bool.and_eq_true, decide_eq_true_eq] at hok
    exact hok.2
  have hrange : ∀ j, j ∈ List.range' cfg.start_cpu
      ((cfg.start_cpu + cfg.thread_count) % U64 - cfg.start_cpu) → j < online_cpus := by
    intro j hj
    rw [List.mem_range'_1] at hj
    omega
  unfold start_worker_threads at hi
  simp only at hi
  generalize List.range' cfg.start_cpu
    ((cfg.start_cpu + cfg.thread_count) % U64 - cfg.start_cpu) = l at hi hrange
  have hnil : ∀ k, k ∈ cpu_info_accesses [] ∨ k ∈ l → k < online_cpus := by
    intro k hk
    rcases hk with h2 | h2
    · simp [cpu_info_accesses] at h2
    · exact hrange k h2
  cases hsp : spawn_loop P cfg l [] with
  | exited o =>
    have h1 := spawn_loop_accesses P cfg l [] i
    rw [hsp] at hi h1
    exact hnil i (h1 hi)
  | returned tr =>
    have htr : ∀ k, k ∈ cpu_info_accesses tr → k < online_cpus := by
      intro k hk
      have h1 := spawn_loop_accesses P cfg l [] k
      rw [hsp] at h1
      exact hnil k (h1 hk)
    rw [hsp] at hi
    simp only at hi
    cases hjn : join_loop P l tr with
    | exited o =>
      have h3 := join_loop_accesses P l tr i
      rw [hjn] at hi h3
      rcases h3 hi with h4 | h4
      · exact htr i h4
      · exact hrange i h4
    | returned tr2 =>
      have h3 := join_loop_accesses P l tr i
      rw [hjn] at hi h3
      simp only [trace_of, cpu_info_accesses, List.filterMap_append, List.mem_append] at hi h3
      rcases hi with hi | hi
      · rcases h3 hi with h4 | h4
        · exact htr i h4
        · exact hrange i h4
      · simp [cpu_info_index] at hi

/-- Witness of `cpu_info_accesses_in_bounds`: with `start_cpu = 1`,
`thread_count = 2` and four cpus online, the table of 96 bytes is accessed at
index 2. -/
theorem cpu_info_accesses_in_bounds_witness :
    verify_param 1 2 4 = true ∧
      2 ∈ cpu_info_accesses (trace_of (start_worker_threads (platform_create_fails 3)
        { sample_ms := 10, time_out := 10, work_load := 100,
          thread_count := 2, start_cpu := 1 })) ∧
      2 < 4 ∧ SIZEOF_CPU_INFO * 4 < U64 ∧
      SIZEOF_CPU_INFO * (2 + 1) ≤ (SIZEOF_CPU_INFO * 4) % U64 :=
  ⟨by decide, by decide,
    (cpu_info_accesses_in_bounds (platform_create_fails 3)
      { sample_ms := 10, time_out := 10, work_load := 100, thread_count := 2, start_cpu := 1 } 4
      (by decide) 2 (by decide)).1,
    by decide,
    (cpu_info_accesses_in_bounds (platform_create_fails 3)
      { sample_ms := 10, time_out := 10, work_load := 100, thread_count := 2, start_cpu := 1 } 4
      (by decide) 2 (by decide)).2 (by decide)⟩

end X86Cpuload
